import Mathlib

/-!
Verification of the data normalization and aggregation pipeline of the
rocky-stats repository (src/config.py, src/data_utils.py), shallowly
embedded in Lean 4.

Dates are represented by their ISO strings (the pipeline only ever compares
them for equality or order, and ISO strings compare consistently).
Numeric CSV cells are represented by Int.  A pandas DataFrame of EPEL usage
rows is a List EpelRow; a DataFrame of numeric columns (DockerHub table,
pivot output) is a list of named integer columns.
-/

namespace RockyStats

/-- Configuration list EPEL_REPOS from src/config.py. -/
def EPEL_REPOS : List String := ["epel-8", "epel-9", "epel-10"]

/-- Configuration list ERROR_DATES from src/config.py: week_end dates with
known data errors, excluded from the EPEL table. -/
def ERROR_DATES : List String :=
  ["2023-05-07", "2023-05-14", "2023-10-29", "2023-11-05"]

/-- Configuration value CACHE_DAYS from src/config.py. -/
def CACHE_DAYS : ℕ := 7

/-- Configuration list VALID_ROCKY_VERSIONS from src/config.py. -/
def VALID_ROCKY_VERSIONS : List String :=
  ["8.3", "8.4", "8.5", "8.6", "8.7", "8.8", "8.9", "8.10",
   "9.0", "9.1", "9.2", "9.3", "9.4", "9.5", "9.6",
   "10.0"]

/-- One parsed row of the EPEL usage CSV (the columns read and typed by
load_epel_data in src/data_utils.py). -/
structure EpelRow where
  week_start : String
  week_end : String
  os_name : String
  os_version : String
  os_variant : String
  os_arch : String
  repo_tag : String
  repo_arch : String
  sys_age : Int
  hits : Int
deriving DecidableEq, Repr

/-- The error-date removal loop of load_epel_data: for each error date the
rows whose week_end equals that date are dropped
(df = df.drop(df[df[week_end] == error_date].index)). -/
def dropErrorDates (dates : List String) (df : List EpelRow) : List EpelRow :=
  dates.foldl (fun d e => d.filter (fun r => r.week_end != e)) df

/-- Embedding of load_epel_data from src/data_utils.py, starting from the
parsed CSV rows: keep rows whose repo_tag is in EPEL_REPOS, then drop the
rows whose week_end matches any configured error date. -/
def load_epel_data (rows : List EpelRow) : List EpelRow :=
  dropErrorDates ERROR_DATES (rows.filter (fun r => EPEL_REPOS.contains r.repo_tag))

/-- Embedding of filter_by_date from src/data_utils.py: keep rows whose
selected date column is strictly greater than start_date.  The date_column
parameter of the source selects which field is compared. -/
def filter_by_date (df : List EpelRow) (start_date : String)
    (date_column : EpelRow → String) : List EpelRow :=
  df.filter (fun r => decide (start_date < date_column r))

/-- The age_condition argument of filter_by_system_age: in the source it is
a Python value that may be the string longterm, the string ephemeral, an
int, or anything else (isinstance(age_condition, int) fails). -/
inductive AgeCondition where
  | strVal (s : String)
  | intVal (n : Int)
  | nonIntOther
deriving DecidableEq, Repr

/-- Embedding of filter_by_system_age from src/data_utils.py: longterm
keeps sys_age > 1, ephemeral keeps sys_age == 1, an int n keeps
sys_age > n, and any other value returns the dataframe unchanged. -/
def filter_by_system_age (df : List EpelRow) (cond : AgeCondition) : List EpelRow :=
  match cond with
  | .strVal s =>
      if s = "longterm" then df.filter (fun r => decide (1 < r.sys_age))
      else if s = "ephemeral" then df.filter (fun r => r.sys_age == 1)
      else df
  | .intVal n => df.filter (fun r => decide (n < r.sys_age))
  | .nonIntOther => df

/-- Embedding of filter_by_repo_tag from src/data_utils.py. -/
def filter_by_repo_tag (df : List EpelRow) (repo_tag : String) : List EpelRow :=
  df.filter (fun r => r.repo_tag == repo_tag)

/-- Embedding of filter_by_os_name from src/data_utils.py. -/
def filter_by_os_name (df : List EpelRow) (os_name : String) : List EpelRow :=
  df.filter (fun r => r.os_name == os_name)

/-- Embedding of filter_by_arch from src/data_utils.py: altarch keeps rows
with repo_arch different from x86_64, any other argument keeps rows whose
repo_arch equals it exactly. -/
def filter_by_arch (df : List EpelRow) (arch_filter : String) : List EpelRow :=
  if arch_filter = "altarch" then df.filter (fun r => r.repo_arch != "x86_64")
  else df.filter (fun r => r.repo_arch == arch_filter)

/-- Embedding of filter_valid_rocky_versions from src/data_utils.py:
keep rows whose os_version is in VALID_ROCKY_VERSIONS (isin). -/
def filter_valid_rocky_versions (df : List EpelRow) : List EpelRow :=
  df.filter (fun r => VALID_ROCKY_VERSIONS.contains r.os_version)

lemma contains_eq_true_iff (l : List String) (a : String) :
    l.contains a = true ↔ a ∈ l := by
  simp [List.contains_iff_exists_mem_beq, beq_iff_eq]

/-- A dataframe of numeric columns: a list of named integer columns, one
entry of a column per row (rows are the date index, in order). -/
abbrev Table := List (String × List Int)

/-- The per-row sum df.sum(numeric_only=True, axis=1): the element-wise sum
of all (numeric) columns present in the table. -/
def rowSums : Table → List Int
  | [] => []
  | c :: rest => rest.foldl (fun acc d => List.zipWith (· + ·) acc d.2) c.2

/-- Column assignment df[name] = vals: overwrite the column in place if a
column of that name exists, otherwise append it as a new last column. -/
def setCol (df : Table) (name : String) (vals : List Int) : Table :=
  if df.any (fun c => c.1 == name) then
    df.map (fun c => if c.1 == name then (name, vals) else c)
  else df ++ [(name, vals)]

/-- Embedding of add_total_column from src/data_utils.py: copy the
dataframe and assign the column named total to the row-wise sum of all
numeric columns currently in the copy (a pre-existing total column is part
of that sum, and is then overwritten by the assignment). -/
def add_total_column (df : Table) : Table :=
  setCol df "total" (rowSums df)

/-- Lookup of the total column of a table. -/
def getTotal (df : Table) : Option (List Int) :=
  (df.find? (fun c => c.1 == "total")).map (fun c => c.2)

/-- The diff().iloc[1:] step of load_dockerhub_data, per column: day-over-day
differences value[i] - value[i-1], with the first row (which diff leaves as
NaN) dropped. -/
def diffDrop : List Int → List Int
  | [] => []
  | [_] => []
  | a :: b :: rest => (b - a) :: diffDrop (b :: rest)

/-- Applying diff().iloc[1:] to every column of the parsed CSV table. -/
def diffTable (csv : Table) : Table :=
  csv.map (fun c => (c.1, diffDrop c.2))

/-- The exception raised by a pandas column access df[name] when the column
is missing; this realizes the SchemaError of the specification's error
taxonomy. -/
inductive KeyError where
  | missing (column : String)
deriving DecidableEq, Repr

/-- Column access df[name]: the column's values, or a KeyError when no
column of that name exists. -/
def getCol (df : Table) (name : String) : Except KeyError (List Int) :=
  match df.find? (fun c => c.1 == name) with
  | some c => Except.ok c.2
  | none => Except.error (KeyError.missing name)

/-- One aggregation expression df[n1] + df[n2] + ... of load_dockerhub_data:
columns are accessed left to right (the first missing one raises) and summed
element-wise. -/
def sumGroup (df : Table) : List String → Except KeyError (List Int)
  | [] => Except.ok []
  | [n] => getCol df n
  | n :: m :: rest =>
      match getCol df n with
      | Except.error e => Except.error e
      | Except.ok c =>
          match sumGroup df (m :: rest) with
          | Except.error e => Except.error e
          | Except.ok s => Except.ok (List.zipWith (· + ·) c s)

/-- The fixed aggregation groups of load_dockerhub_data in
src/data_utils.py: each output distribution column with the raw image-tag
columns summed into it, in source order. -/
def dhGroups : List (String × List String) :=
  [("AlmaLinux",
    ["library/almalinux",
     "almalinux/8-base", "almalinux/8-init", "almalinux/8-micro",
     "almalinux/8-minimal",
     "almalinux/9-base", "almalinux/9-init", "almalinux/9-micro",
     "almalinux/9-minimal",
     "almalinux/almalinux", "almalinux/amd64", "almalinux/arm64v8",
     "almalinux/i386", "almalinux/ppc64le", "almalinux/s390x"]),
   ("CentOS Linux", ["library/centos"]),
   ("Oracle Linux Server", ["library/oraclelinux"]),
   ("Red Hat Enterprise Linux",
    ["redhat/ubi8", "redhat/ubi8-init", "redhat/ubi8-micro",
     "redhat/ubi8-minimal",
     "redhat/ubi9", "redhat/ubi9-init", "redhat/ubi9-micro",
     "redhat/ubi9-minimal"]),
   ("Rocky Linux", ["library/rockylinux", "rockylinux/rockylinux"])]

/-- Every raw image-tag column named in the aggregation groups. -/
def dhRawColumns : List String :=
  (dhGroups.map (fun g => g.2)).flatten

/-- Assigning the aggregated columns of the output dataframe one group at a
time, in order; the first missing raw column aborts the load. -/
def buildGroups (df : Table) : List (String × List String) → Except KeyError Table
  | [] => Except.ok []
  | g :: gs =>
      match sumGroup df g.2 with
      | Except.error e => Except.error e
      | Except.ok v =>
          match buildGroups df gs with
          | Except.error e => Except.error e
          | Except.ok rest => Except.ok ((g.1, v) :: rest)

/-- Embedding of load_dockerhub_data from src/data_utils.py, starting from
the parsed CSV table of cumulative pull counters: take day-over-day deltas
and drop the first row, then build one aggregated column per distribution
from the fixed groups. -/
def load_dockerhub_data (csv : Table) : Except KeyError Table :=
  buildGroups (diffTable csv) dhGroups

/-- What the transport layer produced for the GET request in
download_with_progress: requests.get raised (endpoint unreachable), or a
response with a status code and a body, or the response stream broke after
yielding only a prefix of the body. -/
inductive HttpResult where
  | connectionError
  | response (status : Nat) (body : String)
  | interrupted (bodyPrefix : String)
deriving DecidableEq, Repr

/-- Outcome of running download_with_progress: the content of the local
cache file afterwards (none = no file) and whether an exception propagated
to the caller. -/
structure DownloadOutcome where
  fileContent : Option String
  raised : Bool
deriving DecidableEq, Repr

/-- Embedding of download_with_progress from src/data_utils.py.  On a
connection error, requests.get raises before open(local_path, "wb") runs,
so the cache file keeps its previous content.  Otherwise the file is opened
in "wb" mode (truncated) and the body chunks are written; the HTTP status
code is never consulted (there is no raise_for_status and no status check),
so an error response's body is written and the call returns normally.  If
the stream breaks mid-download, the prefix already written stays in the
file and the exception propagates. -/
def download_with_progress (http : HttpResult) (cache : Option String) :
    DownloadOutcome :=
  match http with
  | HttpResult.connectionError => ⟨cache, true⟩
  | HttpResult.response _ body => ⟨some body, false⟩
  | HttpResult.interrupted bodyPrefix => ⟨some bodyPrefix, true⟩

/-- The cache-freshness decision of download_file in src/data_utils.py:
download when the file does not exist, or when now minus the file's mtime
exceeds CACHE_DAYS days (ages are measured in days, as a rational to allow
sub-day resolution). -/
def download_file_refetches (fileExists : Bool) (ageDays : ℚ) : Bool :=
  if fileExists then decide ((CACHE_DAYS : ℚ) < ageDays) else true

/-- A sample EPEL row used for concrete instances; only the os_version
field varies. -/
def exampleRow (v : String) : EpelRow :=
  ⟨"2024-01-01", "2024-01-07", "Rocky Linux", v, "generic", "x86_64",
   "epel-9", "x86_64", 2, 10⟩

/-- A complete container CSV sample: every raw image-tag column named in
the aggregation groups, each with cumulative values 0 then 1. -/
def sampleCsv : Table := dhRawColumns.map (fun n => (n, [0, 1]))

/-- The sample container CSV with the library/centos column removed. -/
def sampleCsvMissing : Table :=
  (dhRawColumns.filter (fun n => n != "library/centos")).map (fun n => (n, [0, 1]))

/-- Claim C4: the cache freshness boundary is inclusive.  When the cached
file exists, download_file downloads again exactly when the age strictly
exceeds CACHE_DAYS days; at an age of exactly CACHE_DAYS days it performs
no download. -/
theorem c4_cache_boundary_inclusive :
    download_file_refetches true (CACHE_DAYS : ℚ) = false ∧
    ∀ ageDays : ℚ,
      download_file_refetches true ageDays = true ↔ (CACHE_DAYS : ℚ) < ageDays := by
  constructor
  · simp [download_file_refetches]
  · intro ageDays
    simp [download_file_refetches]

/-- Claim C6: the error-date removal loop keeps a row exactly when it was
in the input and its week_end matches no date in the error-date list: the
rows removed are precisely those with an exact week_end match, regardless
of every other field. -/
theorem c6_error_date_exclusion (dates : List String) (df : List EpelRow) (r : EpelRow) :
    r ∈ dropErrorDates dates df ↔ r ∈ df ∧ r.week_end ∉ dates := by
  induction dates generalizing df with
  | nil => simp [dropErrorDates]
  | cons e es ih =>
      have step : dropErrorDates (e :: es) df =
          dropErrorDates es (df.filter (fun r => r.week_end != e)) := rfl
      rw [step, ih]
      simp only [List.mem_filter, bne_iff_ne, List.mem_cons, decide_eq_true_eq]
      constructor
      · rintro ⟨⟨h1, h2⟩, h3⟩
        exact ⟨h1, by rintro (h | h) <;> [exact h2 h; exact h3 h]⟩
      · rintro ⟨h1, h2⟩
        exact ⟨⟨h1, fun h => h2 (Or.inl h)⟩, fun h => h2 (Or.inr h)⟩

/-- Claim C7: filter_by_system_age keeps exactly sys_age > 1 for longterm,
exactly sys_age == 1 for ephemeral, exactly sys_age > n for an integer n,
and returns the table unchanged for every other argument. -/
theorem c7_system_age_filter (df : List EpelRow) (r : EpelRow) :
    (r ∈ filter_by_system_age df (AgeCondition.strVal "longterm") ↔
      r ∈ df ∧ 1 < r.sys_age) ∧
    (r ∈ filter_by_system_age df (AgeCondition.strVal "ephemeral") ↔
      r ∈ df ∧ r.sys_age = 1) ∧
    (∀ n : Int, r ∈ filter_by_system_age df (AgeCondition.intVal n) ↔
      r ∈ df ∧ n < r.sys_age) ∧
    (∀ s : String, s ≠ "longterm" → s ≠ "ephemeral" →
      filter_by_system_age df (AgeCondition.strVal s) = df) ∧
    filter_by_system_age df AgeCondition.nonIntOther = df := by
  refine ⟨?_, ?_, ?_, ?_, rfl⟩
  · simp [filter_by_system_age, List.mem_filter]
  · simp only [filter_by_system_age]
    rw [if_neg (by decide)]
    simp [List.mem_filter]
  · intro n
    simp [filter_by_system_age, List.mem_filter]
  · intro s h1 h2
    simp only [filter_by_system_age]
    rw [if_neg h1, if_neg h2]

/-- Claim C8: filter_valid_rocky_versions keeps exactly the rows whose
os_version is in VALID_ROCKY_VERSIONS; concretely, a row carrying version
9.7 is excluded while a row carrying version 9.6 is retained. -/
theorem c8_version_whitelist (df : List EpelRow) (r : EpelRow) :
    (r ∈ filter_valid_rocky_versions df ↔
      r ∈ df ∧ r.os_version ∈ VALID_ROCKY_VERSIONS) ∧
    filter_valid_rocky_versions [exampleRow "9.7", exampleRow "9.6"] =
      [exampleRow "9.6"] := by
  constructor
  · simp [filter_valid_rocky_versions, List.mem_filter, contains_eq_true_iff]
  · decide

/-- Claim C9: every row filter of the pipeline returns a sub-sequence of
its input (each kept row unchanged, relative order preserved; the inputs
themselves are immutable values here, matching the non-mutating boolean
indexing of the source). -/
theorem c9_filters_are_subsequences (df : List EpelRow) :
    (∀ s col, List.Sublist (filter_by_date df s col) df) ∧
    (∀ cond, List.Sublist (filter_by_system_age df cond) df) ∧
    (∀ t, List.Sublist (filter_by_repo_tag df t) df) ∧
    (∀ nm, List.Sublist (filter_by_os_name df nm) df) ∧
    (∀ a, List.Sublist (filter_by_arch df a) df) ∧
    List.Sublist (filter_valid_rocky_versions df) df := by
  refine ⟨fun s col => List.filter_sublist df, ?_, fun t => List.filter_sublist df,
    fun nm => List.filter_sublist df, ?_, List.filter_sublist df⟩
  · intro cond
    cases cond with
    | strVal s =>
        simp only [filter_by_system_age]
        split
        · exact List.filter_sublist df
        · split
          · exact List.filter_sublist df
          · exact List.Sublist.refl df
    | intVal n => exact List.filter_sublist df
    | nonIntOther => exact List.Sublist.refl df
  · intro a
    unfold filter_by_arch
    split <;> exact List.filter_sublist df

/-- Witness for claim C7 at a concrete table and a concrete unrecognized
bucket string. -/
theorem c7_system_age_filter_witness :
    ("weird" : String) ≠ "longterm" ∧ ("weird" : String) ≠ "ephemeral" ∧
    filter_by_system_age [exampleRow "9.6"] (AgeCondition.strVal "weird") =
      [exampleRow "9.6"] := by
  refine ⟨by decide, by decide, ?_⟩
  exact (c7_system_age_filter [exampleRow "9.6"] (exampleRow "9.6")).2.2.2.1
    "weird" (by decide) (by decide)

lemma diffDrop_length (xs : List Int) : (diffDrop xs).length = xs.length - 1 := by
  induction xs with
  | nil => rfl
  | cons a tail ih =>
      cases tail with
      | nil => rfl
      | cons b rest =>
          simp only [diffDrop, List.length_cons] at ih ⊢
          omega

lemma diffDrop_getD (xs : List Int) (i : ℕ) (h : i + 1 < xs.length) :
    (diffDrop xs).getD i 0 = xs.getD (i + 1) 0 - xs.getD i 0 := by
  induction xs generalizing i with
  | nil => simp at h
  | cons a tail ih =>
      cases tail with
      | nil => simp at h
      | cons b rest =>
          cases i with
          | zero => simp [diffDrop]
          | succ j =>
              have h' : j + 1 < (b :: rest).length := by
                simp only [List.length_cons] at h ⊢
                omega
              simp only [diffDrop, List.getD_cons_succ]
              exact ih j h'

/-- Claim C5: container normalization computes day-over-day deltas per raw
column (entry i of the delta column is value[i+1] - value[i] of the raw
column) and drops the first row, so the delta column is one entry shorter
than the raw column. -/
theorem c5_delta_correctness (xs : List Int) (i : ℕ) (h : i + 1 < xs.length) :
    (diffDrop xs).length = xs.length - 1 ∧
    (diffDrop xs).getD i 0 = xs.getD (i + 1) 0 - xs.getD i 0 :=
  ⟨diffDrop_length xs, diffDrop_getD xs i h⟩

/-- Witness for claim C5: the cumulative column 100, 140, 142 yields the
delta column 40, 2 and its first delta is 40. -/
theorem c5_delta_correctness_witness :
    0 + 1 < ([100, 140, 142] : List Int).length ∧
    diffDrop [100, 140, 142] = [40, 2] ∧
    (diffDrop ([100, 140, 142] : List Int)).getD 0 0 = 40 := by
  refine ⟨by decide, by decide, ?_⟩
  exact (c5_delta_correctness [100, 140, 142] 0 (by decide)).2.trans (by decide)

/-- Claim C1: contrary to the specification, a failed download can corrupt
a previously valid cache.  At the failing input (HTTP status 404 with an
error body, cache holding valid CSV content) download_with_progress writes
the error body over the cache and returns without raising; only a
connection error (raised before the file is opened) leaves the cache
untouched, and a broken stream leaves a partially written prefix. -/
theorem c1_failed_download_overwrites_cache :
    download_with_progress (HttpResult.response 404 "error body")
      (some "date,hits") = ⟨some "error body", false⟩ ∧
    download_with_progress (HttpResult.interrupted "date,hi")
      (some "date,hits") = ⟨some "date,hi", true⟩ ∧
    download_with_progress HttpResult.connectionError
      (some "date,hits") = ⟨some "date,hits", true⟩ :=
  ⟨rfl, rfl, rfl⟩

lemma add_total_of_no_total {df : Table} (h : ∀ c ∈ df, c.1 ≠ "total") :
    add_total_column df = df ++ [("total", rowSums df)] := by
  unfold add_total_column setCol
  rw [if_neg]
  simp only [List.any_eq_true, beq_iff_eq, not_exists, not_and]
  exact fun c hc => h c hc

lemma rowSums_append_col (c : String × List Int) (rest : Table)
    (n : String) (t : List Int) :
    rowSums ((c :: rest) ++ [(n, t)]) =
      List.zipWith (· + ·) (rowSums (c :: rest)) t := by
  simp [rowSums, List.foldl_append]

lemma zipWith_add_self (s : List Int) :
    List.zipWith (· + ·) s s = s.map (fun v => 2 * v) := by
  induction s with
  | nil => rfl
  | cons a t ih =>
      show (a + a) :: List.zipWith (· + ·) t t = (2 * a) :: t.map (fun v => 2 * v)
      rw [ih, two_mul a]

lemma map_overwrite_of_no_total {df : Table} (vals : List Int)
    (h : ∀ c ∈ df, c.1 ≠ "total") :
    df.map (fun c => if c.1 == "total" then ("total", vals) else c) = df := by
  induction df with
  | nil => rfl
  | cons c rest ih =>
      have hc : (c.1 == "total") = false := by
        simpa using h c (List.mem_cons_self c rest)
      rw [List.map_cons, hc, if_neg (by simp),
        ih (fun d hd => h d (List.mem_cons_of_mem c hd))]

lemma getTotal_append {df : Table} (x : List Int)
    (h : ∀ c ∈ df, c.1 ≠ "total") :
    getTotal (df ++ [("total", x)]) = some x := by
  induction df with
  | nil => simp [getTotal]
  | cons c rest ih =>
      have hc : (c.1 == "total") = false := by
        simpa using h c (List.mem_cons_self c rest)
      have step : getTotal ((c :: rest) ++ [("total", x)]) =
          getTotal (rest ++ [("total", x)]) := by
        simp [getTotal, List.find?_cons, hc]
      rw [step]
      exact ih (fun d hd => h d (List.mem_cons_of_mem c hd))

lemma add_total_twice {df : Table} (h : ∀ c ∈ df, c.1 ≠ "total") :
    add_total_column (add_total_column df) =
      df ++ [("total", rowSums (df ++ [("total", rowSums df)]))] := by
  rw [add_total_of_no_total h]
  unfold add_total_column setCol
  rw [if_pos (by simp [List.any_eq_true]), List.map_append,
    map_overwrite_of_no_total _ h]
  simp

/-- Claim C2 fails on the code: on the one-column table hits = 5, the total
column after applying add_total_column twice is 10 while after one
application it is 5 — the second call's row-wise sum includes the existing
total column before overwriting it. -/
theorem c2_counterexample :
    getTotal (add_total_column (add_total_column [("hits", [5])])) ≠
      getTotal (add_total_column [("hits", [5])]) := by
  decide

/-- Claim C2 amended: add_total_column does overwrite the total column,
but the overwritten value is the row-wise sum of all numeric columns
including the previous total; hence for a table with no prior total column
the totals after two applications are exactly twice the totals after one
application (so the two agree only where the totals are zero). -/
theorem c2_add_total_not_idempotent (df : Table)
    (h : ∀ c ∈ df, c.1 ≠ "total") :
    getTotal (add_total_column (add_total_column df)) =
      (getTotal (add_total_column df)).map (List.map (fun v => 2 * v)) := by
  cases df with
  | nil => decide
  | cons c rest =>
      rw [add_total_twice h, add_total_of_no_total h,
        getTotal_append _ h, getTotal_append _ h,
        rowSums_append_col c rest _ _, zipWith_add_self]
      rfl

/-- Witness for the amended claim C2 at the one-column table hits = 5. -/
theorem c2_add_total_not_idempotent_witness :
    (∀ c ∈ ([("hits", [5])] : Table), c.1 ≠ "total") ∧
    getTotal (add_total_column (add_total_column [("hits", [5])])) =
      some [10] := by
  refine ⟨by decide, ?_⟩
  rw [c2_add_total_not_idempotent [("hits", [5])] (by decide)]
  decide

lemma find_diffTable (csv : Table) (n : String) :
    (diffTable csv).find? (fun c => c.1 == n) =
      (csv.find? (fun c => c.1 == n)).map (fun c => (c.1, diffDrop c.2)) := by
  induction csv with
  | nil => rfl
  | cons c rest ih =>
      by_cases hc : (c.1 == n) = true
      · simp [diffTable, List.find?_cons, hc]
      · have hc' : (c.1 == n) = false := by
          cases hb : (c.1 == n)
          · rfl
          · exact absurd hb hc
        simpa [diffTable, List.find?_cons, hc'] using ih

lemma getCol_diffTable_none {csv : Table} {n : String}
    (h : csv.find? (fun c => c.1 == n) = none) :
    getCol (diffTable csv) n = Except.error (KeyError.missing n) := by
  unfold getCol
  rw [find_diffTable, h]
  rfl

lemma sumGroup_error (df : Table) (n : String) (e : KeyError)
    (hn : getCol df n = Except.error e) (names : List String) (hmem : n ∈ names) :
    ∃ x, sumGroup df names = Except.error x := by
  induction names with
  | nil => exact absurd hmem (List.not_mem_nil n)
  | cons m tail ih =>
      cases tail with
      | nil =>
          have hnm : n = m := by simpa using hmem
          subst hnm
          exact ⟨e, by simpa [sumGroup] using hn⟩
      | cons k rest =>
          cases hm : getCol df m with
          | error x => exact ⟨x, by simp [sumGroup, hm]⟩
          | ok c =>
              have hne : n ≠ m := by
                intro hEq
                subst hEq
                rw [hn] at hm
                cases hm
              have hmem' : n ∈ k :: rest := by
                rcases List.mem_cons.mp hmem with h1 | h1
                · exact absurd h1 hne
                · exact h1
              obtain ⟨x, hx⟩ := ih hmem'
              exact ⟨x, by simp [sumGroup, hm, hx]⟩

lemma buildGroups_error (df : Table) (g0 : String × List String)
    (gs : List (String × List String)) (hmem : g0 ∈ gs)
    (hsum : ∃ x, sumGroup df g0.2 = Except.error x) :
    ∃ x, buildGroups df gs = Except.error x := by
  induction gs with
  | nil => exact absurd hmem (List.not_mem_nil g0)
  | cons g tail ih =>
      cases hsg : sumGroup df g.2 with
      | error x => exact ⟨x, by simp [buildGroups, hsg]⟩
      | ok v =>
          have hne : g0 ≠ g := by
            intro hEq
            obtain ⟨x, hx⟩ := hsum
            rw [hEq, hsg] at hx
            cases hx
          have hmem' : g0 ∈ tail := by
            rcases List.mem_cons.mp hmem with h1 | h1
            · exact absurd h1 hne
            · exact h1
          obtain ⟨x, hx⟩ := ih hmem'
          exact ⟨x, by simp [buildGroups, hsg, hx]⟩

/-- Claim C3: if any raw image-tag column named in the aggregation groups
is absent from the parsed container CSV, load_dockerhub_data fails with the
missing-column error (the spec's SchemaError, realized as the KeyError of
the failed pandas column access) instead of silently producing a column
with a lower sum. -/
theorem c3_missing_column_fails (csv : Table) (name : String)
    (hmem : name ∈ dhRawColumns)
    (hmiss : csv.find? (fun c => c.1 == name) = none) :
    ∃ m, load_dockerhub_data csv = Except.error (KeyError.missing m) := by
  have hg : ∃ g ∈ dhGroups, name ∈ g.2 := by
    have h1 := hmem
    simp only [dhRawColumns, List.mem_flatten] at h1
    obtain ⟨l, hl, hnl⟩ := h1
    obtain ⟨g, hgmem, hgl⟩ := List.mem_map.mp hl
    exact ⟨g, hgmem, by rw [← hgl] at hnl; exact hnl⟩
  obtain ⟨g, hgmem, hng⟩ := hg
  have herr : getCol (diffTable csv) name = Except.error (KeyError.missing name) :=
    getCol_diffTable_none hmiss
  have hsum := sumGroup_error (diffTable csv) name _ herr g.2 hng
  obtain ⟨y, hy⟩ := buildGroups_error (diffTable csv) g dhGroups hgmem hsum
  cases y with
  | missing m => exact ⟨m, hy⟩

/-- Witness for claim C3: dropping the library/centos column from an
otherwise complete container CSV makes the load fail. -/
theorem c3_missing_column_fails_witness :
    ("library/centos" ∈ dhRawColumns) ∧
    ∃ m, load_dockerhub_data sampleCsvMissing =
      Except.error (KeyError.missing m) := by
  refine ⟨by decide, ?_⟩
  exact c3_missing_column_fails sampleCsvMissing "library/centos"
    (by decide) (by decide)

lemma diffDrop_nonneg (xs : List Int) (hch : List.Chain' (· ≤ ·) xs) :
    ∀ v ∈ diffDrop xs, 0 ≤ v := by
  induction xs with
  | nil => intro v hv; exact absurd hv (List.not_mem_nil v)
  | cons a tail ih =>
      cases tail with
      | nil => intro v hv; exact absurd hv (List.not_mem_nil v)
      | cons b rest =>
          rw [List.chain'_cons] at hch
          intro v hv
          rcases List.mem_cons.mp hv with h1 | h1
          · subst h1
            have hab : a ≤ b := hch.1
            omega
          · exact ih hch.2 v h1

lemma zipWith_add_nonneg :
    ∀ (xs ys : List Int), (∀ v ∈ xs, 0 ≤ v) → (∀ v ∈ ys, 0 ≤ v) →
    ∀ v ∈ List.zipWith (· + ·) xs ys, 0 ≤ v
  | [], _, _, _ => by intro v hv; simp at hv
  | _ :: _, [], _, _ => by intro v hv; simp at hv
  | x :: xt, y :: yt, hx, hy => by
      intro v hv
      rw [List.zipWith_cons_cons] at hv
      rcases List.mem_cons.mp hv with h1 | h1
      · subst h1
        have h2 : 0 ≤ x := hx x (List.mem_cons_self x xt)
        have h3 : 0 ≤ y := hy y (List.mem_cons_self y yt)
        omega
      · exact zipWith_add_nonneg xt yt
          (fun v hv => hx v (List.mem_cons_of_mem x hv))
          (fun v hv => hy v (List.mem_cons_of_mem y hv)) v h1

lemma sumGroup_nonneg (df : Table)
    (hcol : ∀ n v, getCol df n = Except.ok v → ∀ x ∈ v, 0 ≤ x)
    (names : List String) (s : List Int)
    (hs : sumGroup df names = Except.ok s) :
    ∀ x ∈ s, 0 ≤ x := by
  induction names generalizing s with
  | nil =>
      have : s = [] := by simpa [sumGroup] using hs.symm
      subst this
      intro x hx
      exact absurd hx (List.not_mem_nil x)
  | cons m tail ih =>
      cases tail with
      | nil => exact hcol m s (by simpa [sumGroup] using hs)
      | cons k rest =>
          cases hm : getCol df m with
          | error e => rw [sumGroup, hm] at hs; cases hs
          | ok c =>
              cases hr : sumGroup df (k :: rest) with
              | error e => rw [sumGroup, hm, hr] at hs; cases hs
              | ok t =>
                  have hst : s = List.zipWith (· + ·) c t := by
                    rw [sumGroup, hm, hr] at hs
                    exact (Except.ok.inj hs).symm
                  subst hst
                  exact zipWith_add_nonneg c t (hcol m c hm) (ih t hr)

lemma buildGroups_nonneg (df : Table)
    (h : ∀ names s, sumGroup df names = Except.ok s → ∀ x ∈ s, 0 ≤ x)
    (gs : List (String × List String)) (out : Table)
    (hout : buildGroups df gs = Except.ok out) :
    ∀ p ∈ out, ∀ v ∈ p.2, 0 ≤ v := by
  induction gs generalizing out with
  | nil =>
      have : out = [] := by simpa [buildGroups] using hout.symm
      subst this
      intro p hp
      exact absurd hp (List.not_mem_nil p)
  | cons g tail ih =>
      cases hsg : sumGroup df g.2 with
      | error e => rw [buildGroups, hsg] at hout; cases hout
      | ok v =>
          cases hbg : buildGroups df tail with
          | error e => rw [buildGroups, hsg, hbg] at hout; cases hout
          | ok rest =>
              have hor : out = (g.1, v) :: rest := by
                rw [buildGroups, hsg, hbg] at hout
                exact (Except.ok.inj hout).symm
              subst hor
              intro p hp x hx
              rcases List.mem_cons.mp hp with h1 | h1
              · subst h1
                exact h g.2 v hsg x hx
              · exact ih rest hbg p h1 x hx

lemma getCol_diffTable_mono {csv : Table}
    (hmono : ∀ c ∈ csv, List.Chain' (· ≤ ·) c.2) :
    ∀ n v, getCol (diffTable csv) n = Except.ok v → ∀ x ∈ v, 0 ≤ x := by
  intro n v hv x hx
  unfold getCol at hv
  rw [find_diffTable] at hv
  cases hf : csv.find? (fun c => c.1 == n) with
  | none => rw [hf] at hv; cases hv
  | some c =>
      rw [hf] at hv
      have hveq : v = diffDrop c.2 := (Except.ok.inj hv).symm
      subst hveq
      exact diffDrop_nonneg c.2 (hmono c (List.mem_of_find?_eq_some hf)) x hx

/-- Claim C10: if every raw cumulative column of the container CSV is
monotonically non-decreasing down its rows, every entry of every aggregated
column produced by load_dockerhub_data is non-negative. -/
theorem c10_monotone_gives_nonneg (csv : Table) (out : Table)
    (hmono : ∀ c ∈ csv, List.Chain' (· ≤ ·) c.2)
    (hok : load_dockerhub_data csv = Except.ok out) :
    ∀ p ∈ out, ∀ v ∈ p.2, 0 ≤ v :=
  buildGroups_nonneg (diffTable csv)
    (fun names s hs =>
      sumGroup_nonneg (diffTable csv) (getCol_diffTable_mono hmono) names s hs)
    dhGroups out hok

/-- Witness for claim C10 at the complete sample CSV whose columns all rise
from 0 to 1. -/
theorem c10_monotone_gives_nonneg_witness :
    (∀ c ∈ sampleCsv, List.Chain' (· ≤ ·) c.2) ∧
    ∃ out, load_dockerhub_data sampleCsv = Except.ok out ∧
      ∀ p ∈ out, ∀ v ∈ p.2, 0 ≤ v := by
  have hvals : ∀ c ∈ sampleCsv, c.2 = [0, 1] := by decide
  have hch01 : List.Chain' (· ≤ ·) ([0, 1] : List Int) := by
    simp [List.chain'_cons]
  have hmono : ∀ c ∈ sampleCsv, List.Chain' (· ≤ ·) c.2 := by
    intro c hc
    rw [hvals c hc]
    exact hch01
  refine ⟨hmono, ?_⟩
  refine ⟨[("AlmaLinux", [15]), ("CentOS Linux", [1]), ("Oracle Linux Server", [1]),
    ("Red Hat Enterprise Linux", [8]), ("Rocky Linux", [2])], rfl, ?_⟩
  exact c10_monotone_gives_nonneg sampleCsv _ hmono rfl

end RockyStats
